import Mathlib

/- Shallow embedding of src/dance_party.py (class DanceParty): the ILLO
   advertisement-name frame codec, the leader advertise step, the follower
   scan-processing and loss-handling steps, and the render/smoothing
   pipeline.  Python ints are modelled as Int/Nat, Python floats as ℚ,
   Python strings as List Char, and fallible code returns Option. -/

namespace Illo

/-- Characters treated as whitespace by Python's int() parser (ASCII subset). -/
def isSpaceChar (c : Char) : Bool :=
  c == ' ' || c == '\t' || c == '\n' || c == '\r' || c == '\x0b' || c == '\x0c'

/-- ASCII decimal digit test, as used by Python's int() parser. -/
def isDigitChar (c : Char) : Bool :=
  '0' ≤ c && c ≤ '9'

/-- Numeric value of an ASCII digit character. -/
def digitVal (c : Char) : Nat := c.toNat - 48

/-- The decimal digit character for a value 0-9 (defaulting to '0'). -/
def digChar (n : Nat) : Char :=
  match n with
  | 0 => '0' | 1 => '1' | 2 => '2' | 3 => '3' | 4 => '4'
  | 5 => '5' | 6 => '6' | 7 => '7' | 8 => '8' | 9 => '9'
  | _ => '0'

/-- Fuelled most-significant-first decimal digit accumulation. -/
def natToDigitsAux : Nat → Nat → List Char → List Char
  | 0, _, acc => acc
  | fuel + 1, n, acc =>
    if n < 10 then digChar n :: acc
    else natToDigitsAux fuel (n / 10) (digChar (n % 10) :: acc)

/-- Decimal digit string of a natural number, as produced by Python's "%d". -/
def natToDigits (n : Nat) : List Char := natToDigitsAux (n + 1) n []

/-- Decimal string of a Python int under "%d" formatting (sign for negatives). -/
def intToDecimal (n : Int) : List Char :=
  if n < 0 then '-' :: natToDigits (-n).toNat else natToDigits n.toNat

/-- Value of a string of decimal digits, most significant first. -/
def digitsToNat (cs : List Char) : Nat :=
  cs.foldl (fun a c => a * 10 + digitVal c) 0

/-- Remove leading and trailing whitespace, as Python's int() does. -/
def stripSpaces (cs : List Char) : List Char :=
  ((cs.dropWhile isSpaceChar).reverse.dropWhile isSpaceChar).reverse

/-- Python's int(str) applied to an ASCII token field: optional surrounding
whitespace, an optional sign, then a nonempty run of decimal digits; any
other input raises ValueError, modelled as none. -/
def pyInt? (cs0 : List Char) : Option Int :=
  match stripSpaces cs0 with
  | [] => none
  | c :: rest =>
    if c = '-' then
      if rest.isEmpty then none
      else if rest.all isDigitChar then some (-(digitsToNat rest : Int)) else none
    else if c = '+' then
      if rest.isEmpty then none
      else if rest.all isDigitChar then some ((digitsToNat rest : Int)) else none
    else if (c :: rest).all isDigitChar then some ((digitsToNat (c :: rest) : Int))
    else none

/-- One highlighted pixel of a frame: (position, intensity, color type),
as the tuples handled by dance_party.py. -/
structure Triple where
  pos : Int
  inten : Int
  ctype : Int
deriving DecidableEq

/-- A decoded visual frame: the dict {"seq": ..., "triples": ...} returned
by DanceParty._parse_name. -/
structure Frame where
  seq : Int
  triples : List Triple
deriving DecidableEq

/-- Number of NeoPixels (DanceParty._NUM_PIXELS). -/
def NUM_PIXELS : Int := 10

/-- The in-range test applied to a decoded triple by _parse_name:
0 <= p < _NUM_PIXELS and 0 <= i <= 255 and 0 <= c <= 2. -/
def validTriple (t : Triple) : Prop :=
  0 ≤ t.pos ∧ t.pos < NUM_PIXELS ∧ 0 ≤ t.inten ∧ t.inten ≤ 255 ∧
    0 ≤ t.ctype ∧ t.ctype ≤ 2

instance : DecidablePred validTriple := fun t => by
  unfold validTriple; infer_instance

/-- The sanity clamp of _parse_name: an in-range triple is kept, an
out-of-range one is replaced by the dark default (0,0,0). -/
def clampTriple (t : Triple) : Triple :=
  if validTriple t then t else ⟨0, 0, 0⟩

/-- The field-processing stage of DanceParty._parse_name, applied to the
result of name.split("_"): require exactly 11 fields, parse fields 1..10 as
ints (any int() failure aborts the whole decode with None), then clamp each
of the three triples. -/
def parse_fields (parts : List (List Char)) : Option Frame :=
  if parts.length = 11 then
    match pyInt? (parts.getD 1 []), (parts.drop 2).mapM pyInt? with
    | some seq, some vals =>
      match vals with
      | [a, b, c, d, e, f, g, h, i] =>
        some ⟨seq, [clampTriple ⟨a, b, c⟩, clampTriple ⟨d, e, f⟩,
                    clampTriple ⟨g, h, i⟩]⟩
      | _ => none
    | _, _ => none
  else none

/-- DanceParty._parse_name: split the advertisement name on "_" and process
the fields. -/
def parse_name (name : List Char) : Option Frame :=
  parse_fields (name.splitOn '_')

/-- The padding loop of _build_adv_name_from_triples: while len < 3,
append (0,0,0). -/
def padTriples (ts : List Triple) : List Triple :=
  ts ++ List.replicate (3 - ts.length) ⟨0, 0, 0⟩

/-- The formatting step of DanceParty._build_adv_name_from_triples:
"ILLO_%d_%d_%d_%d_%d_%d_%d_%d_%d_%d" over the sequence number and the
three (padded) triples.  The sequence increment lives in the leader
advertise step below. -/
def build_adv_name (f : Frame) : List Char :=
  let ts := padTriples f.triples
  let t1 := ts.getD 0 ⟨0, 0, 0⟩
  let t2 := ts.getD 1 ⟨0, 0, 0⟩
  let t3 := ts.getD 2 ⟨0, 0, 0⟩
  List.intercalate ['_']
    [['I', 'L', 'L', 'O'], intToDecimal f.seq,
     intToDecimal t1.pos, intToDecimal t1.inten, intToDecimal t1.ctype,
     intToDecimal t2.pos, intToDecimal t2.inten, intToDecimal t2.ctype,
     intToDecimal t3.pos, intToDecimal t3.inten, intToDecimal t3.ctype]

/-- A frame the spec calls valid: sequence in [0,255], exactly 3 triples,
each in range. -/
def validFrame (f : Frame) : Prop :=
  0 ≤ f.seq ∧ f.seq ≤ 255 ∧ f.triples.length = 3 ∧ ∀ t ∈ f.triples, validTriple t

instance : DecidablePred validFrame := fun f => by
  unfold validFrame; infer_instance

/-- DanceParty._MIN_RENDER_MS: the render rate limit in milliseconds. -/
def MIN_RENDER_MS : Int := 15

/-- DanceParty._LOSS_TIMEOUT_S: follower loss detection timeout in seconds. -/
def LOSS_TIMEOUT_S : ℚ := 3

/-- DanceParty._ADV_PERIOD_MS default: leader advertisement period. -/
def ADV_PERIOD_MS : Int := 80

/-- Python's int() applied to a float: truncation toward zero. -/
def pytrunc (q : ℚ) : Int := if q < 0 then -⌊-q⌋ else ⌊q⌋

/-- The color mapping inside _render_triples: ILLO color type to an RGB
target for one pixel, including the dead r==0 fix-up branch of the red
case.  Python float literals 0.15/0.30/0.05 are modelled as rationals. -/
def themedTargetRGB (inten ctype : Int) : Int × Int × Int :=
  if ctype = 0 then
    ((if inten = 0 ∧ 0 < inten then 1 else inten),
     pytrunc ((inten : ℚ) * (15 / 100)), pytrunc ((inten : ℚ) * (15 / 100)))
  else if ctype = 1 then
    (pytrunc ((inten : ℚ) * (15 / 100)), inten, pytrunc ((inten : ℚ) * (15 / 100)))
  else
    (pytrunc ((inten : ℚ) * (30 / 100)), pytrunc ((inten : ℚ) * (5 / 100)), inten)

/-- One assignment of the target-building loop of _render_triples: skip a
triple with non-positive intensity or an out-of-range position, otherwise
write its themed RGB at its position. -/
def targetStep (tgt : List (Int × Int × Int)) (t : Triple) :
    List (Int × Int × Int) :=
  if t.inten ≤ 0 ∨ ¬(0 ≤ t.pos ∧ t.pos < NUM_PIXELS) then tgt
  else tgt.set t.pos.toNat (themedTargetRGB t.inten t.ctype)

/-- The target-building loop of _render_triples: start from 10 dark cells
and write the themed RGB of each triple at its position. -/
def buildTarget (triples : List Triple) : List (Int × Int × Int) :=
  triples.foldl targetStep (List.replicate 10 (0, 0, 0))

/-- One exponential smoothing update of _render_triples:
smoothed = smoothed + (target - smoothed) * alpha. -/
def smoothChannel (a s t : ℚ) : ℚ := s + (t - s) * a

/-- Per-pixel smoothing: smoothChannel on each of the three channels. -/
def smoothCell (a : ℚ) (s : ℚ × ℚ × ℚ) (t : Int × Int × Int) : ℚ × ℚ × ℚ :=
  (smoothChannel a s.1 (t.1 : ℚ), smoothChannel a s.2.1 (t.2.1 : ℚ),
   smoothChannel a s.2.2 (t.2.2 : ℚ))

/-- The cast-and-clamp of _render_triples's output stage:
0 if sr < 0 else (255 if sr > 255 else int(sr + 0.5)). -/
def pyClampRound (q : ℚ) : Int :=
  if q < 0 then 0 else if q > 255 then 255 else pytrunc (q + 1 / 2)

/-- Follower-side receiver state (the spec's PeerSyncState): _last_seen_t,
_last_seq, the success/fail counters, the smoothing accumulator
_smooth_rgb, the NeoPixel buffer, and _last_render_ms. -/
structure FState where
  last_seen_t : Option ℚ
  last_seq : Option Int
  success : Nat
  fail : Nat
  smooth : List (ℚ × ℚ × ℚ)
  pixels : List (Int × Int × Int)
  last_render_ms : Int
deriving DecidableEq

/-- DanceParty._render_triples: rate-limit by _MIN_RENDER_MS, build the
dense target, smooth each cell, then clamp-round each smoothed channel into
the pixel buffer. -/
def render_triples (a : ℚ) (st : FState) (now : Int)
    (triples : List Triple) : FState :=
  if now - st.last_render_ms < MIN_RENDER_MS then st
  else
    let target := buildTarget triples
    let smooth2 := List.zipWith (smoothCell a) st.smooth target
    let pixels2 := smooth2.map
      (fun c => (pyClampRound c.1, pyClampRound c.2.1, pyClampRound c.2.2))
    { st with smooth := smooth2, pixels := pixels2, last_render_ms := now }

/-- Iterating the smoothing update against a constant target t. -/
def smoothIter (a t s : ℚ) : Nat → ℚ
  | 0 => s
  | n + 1 => smoothChannel a (smoothIter a t s n) t

/-- Range of one RGB target cell: all three channels within [0,255]. -/
def inRangeRGB (x : Int × Int × Int) : Prop :=
  0 ≤ x.1 ∧ x.1 ≤ 255 ∧ 0 ≤ x.2.1 ∧ x.2.1 ≤ 255 ∧ 0 ≤ x.2.2 ∧ x.2.2 ≤ 255

instance : DecidablePred inRangeRGB := fun x => by
  unfold inRangeRGB; infer_instance

/-- Range of one smoothed cell: all three channels within [0,255]. -/
def chanBounds (c : ℚ × ℚ × ℚ) : Prop :=
  0 ≤ c.1 ∧ c.1 ≤ 255 ∧ 0 ≤ c.2.1 ∧ c.2.1 ≤ 255 ∧ 0 ≤ c.2.2 ∧ c.2.2 ≤ 255

instance : DecidablePred chanBounds := fun c => by
  unfold chanBounds; infer_instance

/-- The protocol filter of the follower scan loop:
adv_name.startswith("ILLO_").  An empty name also fails this test. -/
def hasIlloTag (name : List Char) : Bool :=
  match name with
  | 'I' :: 'L' :: 'L' :: 'O' :: '_' :: _ => true
  | _ => false

/-- One discovered advertisement processed by the body of the follower scan
loop in _follower_loop: non-protocol names are skipped (no counter moves);
a parse failure increments the fail counter; a successful parse increments
the success counter and refreshes the last-seen time, and the frame is
handed to _render_triples only when its sequence differs from the last seen
one (which is then updated).  The Bool reports whether the frame was
accepted and rendered (the Python loop then breaks). -/
def processAdv (a : ℚ) (st : FState) (now_s : ℚ) (now_ms : Int)
    (name : List Char) : FState × Bool :=
  if hasIlloTag name = true then
    match parse_name name with
    | none => ({ st with fail := st.fail + 1 }, false)
    | some f =>
      let st1 : FState :=
        { st with success := st.success + 1, last_seen_t := some now_s }
      if st1.last_seq = none ∨ st1.last_seq ≠ some f.seq then
        (render_triples a { st1 with last_seq := some f.seq } now_ms f.triples,
         true)
      else (st1, false)
  else (st, false)

/-- The post-burst loss handling of _follower_loop: if this burst found no
valid frame, a leader was seen before, and the elapsed time reaches
_LOSS_TIMEOUT_S, clear the pixels and reset _last_seq to none; _last_seen_t
is not cleared.  The Bool reports whether the clear ran. -/
def lossStep (st : FState) (now_s : ℚ) (found : Bool) : FState × Bool :=
  match st.last_seen_t with
  | none => (st, false)
  | some t0 =>
    if found = false ∧ LOSS_TIMEOUT_S ≤ now_s - t0 then
      ({ st with pixels := List.replicate 10 (0, 0, 0), last_seq := none },
       true)
    else (st, false)

/-- The pixel-driving path chosen by one DanceParty.run tick, given the mode
and the BLE state after the re-init attempt: with BLE inactive the local
leader animation/idle pattern runs regardless of mode (the local fallback
branch of run); otherwise mode 1 takes the leader path and every other mode
the follower loop. -/
inductive TickAction where
  | localFallback
  | leaderSync
  | followerSync
deriving DecidableEq

/-- The dispatch structure of DanceParty.run. -/
def run_dispatch (mode : Int) (sync_active : Bool) : TickAction :=
  if sync_active = false then TickAction.localFallback
  else if mode = 1 then TickAction.leaderSync
  else TickAction.followerSync

/-- Leader-side state for the advertise step: _seq, _last_adv_ms, the cached
_last_triples, and the currently advertised name (the radio state). -/
structure LState where
  seq : Nat
  last_adv_ms : Int
  triples : List Triple
  adv_name : Option (List Char)
deriving DecidableEq

/-- DanceParty._leader_advertise_if_due, with the advertisement period as a
parameter: return immediately when called within the period of the last
publish (no state change at all); otherwise increment the sequence mod 256,
pad the cached triples, build the name and republish (stop+start
advertising), stamping the publish time.  The Bool reports whether a
publish happened. -/
def leader_advertise_if_due (P : Int) (st : LState) (t : Int) :
    LState × Bool :=
  if t - st.last_adv_ms < P then (st, false)
  else
    ({ seq := (st.seq + 1) % 256, last_adv_ms := t,
       triples := padTriples st.triples,
       adv_name := some (build_adv_name
         ⟨((st.seq + 1) % 256 : Nat), padTriples st.triples⟩) }, true)

/-- A follower state that has last seen sequence 5 at time 0, with both
counters readable and an all-dark buffer. -/
def dupState : FState :=
  ⟨some 0, some 5, 0, 0, List.replicate 10 (0, 0, 0),
   List.replicate 10 (0, 0, 0), 0⟩

/-- A protocol token carrying sequence 5 and three dark triples. -/
def dupName : List Char := ("ILLO_5_0_0_0_0_0_0_0_0_0").toList

/-- A follower state that last saw a frame at time 0 and holds a lit pixel
buffer. -/
def lostState : FState :=
  ⟨some 0, some 5, 1, 0, List.replicate 10 (0, 0, 0),
   List.replicate 10 (7, 7, 7), 0⟩

theorem digChar_isDigit (n : Nat) : isDigitChar (digChar n) = true := by
  unfold digChar
  split <;> decide

theorem digitVal_digChar : ∀ n < 10, digitVal (digChar n) = n := by decide

theorem natToDigitsAux_acc (fuel : Nat) :
    ∀ (n : Nat) (acc : List Char),
      natToDigitsAux fuel n acc = natToDigitsAux fuel n [] ++ acc := by
  induction fuel with
  | zero => intro n acc; simp [natToDigitsAux]
  | succ fuel ih =>
    intro n acc
    simp only [natToDigitsAux]
    split
    · rfl
    · rw [ih (n / 10) (digChar (n % 10) :: acc),
          ih (n / 10) [digChar (n % 10)], List.append_assoc]
      rfl

theorem natToDigitsAux_digits (fuel : Nat) :
    ∀ (n : Nat) (acc : List Char), (∀ c ∈ acc, isDigitChar c = true) →
      ∀ c ∈ natToDigitsAux fuel n acc, isDigitChar c = true := by
  induction fuel with
  | zero => intro n acc hacc; simpa [natToDigitsAux] using hacc
  | succ fuel ih =>
    intro n acc hacc c hc
    simp only [natToDigitsAux] at hc
    split at hc
    · rcases List.mem_cons.mp hc with h | h
      · subst h; exact digChar_isDigit n
      · exact hacc c h
    · refine ih (n / 10) (digChar (n % 10) :: acc) ?_ c hc
      intro d hd
      rcases List.mem_cons.mp hd with h | h
      · subst h; exact digChar_isDigit (n % 10)
      · exact hacc d h

theorem natToDigits_digits (n : Nat) :
    ∀ c ∈ natToDigits n, isDigitChar c = true :=
  natToDigitsAux_digits (n + 1) n [] (by simp)

theorem natToDigits_ne_nil (n : Nat) : natToDigits n ≠ [] := by
  unfold natToDigits
  simp only [natToDigitsAux]
  split
  · simp
  · rw [natToDigitsAux_acc]
    simp

theorem digitsToNat_append_singleton (l : List Char) (c : Char) :
    digitsToNat (l ++ [c]) = digitsToNat l * 10 + digitVal c := by
  unfold digitsToNat
  rw [List.foldl_append]
  rfl

theorem digitsToNat_natToDigitsAux :
    ∀ (fuel n : Nat), n < 10 ^ fuel →
      digitsToNat (natToDigitsAux fuel n []) = n := by
  intro fuel
  induction fuel with
  | zero =>
    intro n hn
    interval_cases n
    rfl
  | succ fuel ih =>
    intro n hn
    simp only [natToDigitsAux]
    split
    · rename_i h
      show digitsToNat [digChar n] = n
      have h2 := digitVal_digChar n h
      unfold digitsToNat
      simp only [List.foldl_cons, List.foldl_nil]
      omega
    · rename_i h
      rw [natToDigitsAux_acc, digitsToNat_append_singleton]
      have hdiv : n / 10 < 10 ^ fuel := by
        rw [Nat.div_lt_iff_lt_mul (by norm_num)]
        calc n < 10 ^ (fuel + 1) := hn
        _ = 10 ^ fuel * 10 := by ring
      rw [ih (n / 10) hdiv, digitVal_digChar (n % 10) (Nat.mod_lt n (by norm_num))]
      omega

theorem digitsToNat_natToDigits (n : Nat) : digitsToNat (natToDigits n) = n := by
  unfold natToDigits
  refine digitsToNat_natToDigitsAux (n + 1) n ?_
  calc n < 2 ^ n := Nat.lt_two_pow n
  _ ≤ 10 ^ n := Nat.pow_le_pow_left (by norm_num) n
  _ ≤ 10 ^ (n + 1) := Nat.pow_le_pow_right (by norm_num) (Nat.le_succ n)

theorem isSpaceChar_eq_false_of_isDigitChar (c : Char)
    (h : isDigitChar c = true) : isSpaceChar c = false := by
  have h1 : c ≠ ' ' := by rintro rfl; exact absurd h (by decide)
  have h2 : c ≠ '\t' := by rintro rfl; exact absurd h (by decide)
  have h3 : c ≠ '\n' := by rintro rfl; exact absurd h (by decide)
  have h4 : c ≠ '\r' := by rintro rfl; exact absurd h (by decide)
  have h5 : c ≠ '\x0b' := by rintro rfl; exact absurd h (by decide)
  have h6 : c ≠ '\x0c' := by rintro rfl; exact absurd h (by decide)
  simp [isSpaceChar, h1, h2, h3, h4, h5, h6]

theorem dropWhile_eq_self_of_no_space (l : List Char)
    (h : ∀ c ∈ l, isSpaceChar c = false) : l.dropWhile isSpaceChar = l := by
  cases l with
  | nil => rfl
  | cons a t => simp [List.dropWhile_cons, h a (List.mem_cons_self a t)]

theorem stripSpaces_eq_self (l : List Char)
    (h : ∀ c ∈ l, isSpaceChar c = false) : stripSpaces l = l := by
  unfold stripSpaces
  rw [dropWhile_eq_self_of_no_space l h,
      dropWhile_eq_self_of_no_space l.reverse
        (fun c hc => h c (List.mem_reverse.mp hc)),
      List.reverse_reverse]

theorem pyInt?_natToDigits (n : Nat) :
    pyInt? (natToDigits n) = some (n : Int) := by
  have hd : ∀ c ∈ natToDigits n, isDigitChar c = true := natToDigits_digits n
  have hs : stripSpaces (natToDigits n) = natToDigits n :=
    stripSpaces_eq_self _
      (fun c hc => isSpaceChar_eq_false_of_isDigitChar c (hd c hc))
  obtain ⟨c, rest, hcr⟩ : ∃ c rest, natToDigits n = c :: rest := by
    cases h : natToDigits n with
    | nil => exact absurd h (natToDigits_ne_nil n)
    | cons a t => exact ⟨a, t, rfl⟩
  have hcd : isDigitChar c = true := hd c (by rw [hcr]; exact List.mem_cons_self c rest)
  have hcm : c ≠ '-' := by rintro rfl; exact absurd hcd (by decide)
  have hcp : c ≠ '+' := by rintro rfl; exact absurd hcd (by decide)
  have hall : (c :: rest).all isDigitChar = true := by
    rw [List.all_eq_true]
    intro x hx
    exact hd x (by rw [hcr]; exact hx)
  unfold pyInt?
  rw [hs, hcr]
  simp only [if_neg hcm, if_neg hcp, hall, if_pos]
  have : digitsToNat (c :: rest) = n := by
    rw [← hcr, digitsToNat_natToDigits]
  rw [this]

theorem pyInt?_intToDecimal (v : Int) (h : 0 ≤ v) :
    pyInt? (intToDecimal v) = some v := by
  unfold intToDecimal
  rw [if_neg (by omega)]
  rw [pyInt?_natToDigits v.toNat, Int.toNat_of_nonneg h]

theorem intToDecimal_no_underscore (v : Int) :
    ∀ c ∈ intToDecimal v, c ≠ '_' := by
  intro c hc
  unfold intToDecimal at hc
  split at hc
  · rcases List.mem_cons.mp hc with h | h
    · subst h; decide
    · have := natToDigits_digits (-v).toNat c h
      rintro rfl; exact absurd this (by decide)
  · have := natToDigits_digits v.toNat c hc
    rintro rfl; exact absurd this (by decide)

theorem padTriples_three (a b c : Triple) : padTriples [a, b, c] = [a, b, c] := by
  simp [padTriples]

theorem build_adv_name_eq (f : Frame) (t1 t2 t3 : Triple)
    (het : f.triples = [t1, t2, t3]) :
    build_adv_name f = List.intercalate ['_']
      [['I', 'L', 'L', 'O'], intToDecimal f.seq,
       intToDecimal t1.pos, intToDecimal t1.inten, intToDecimal t1.ctype,
       intToDecimal t2.pos, intToDecimal t2.inten, intToDecimal t2.ctype,
       intToDecimal t3.pos, intToDecimal t3.inten, intToDecimal t3.ctype] := by
  simp only [build_adv_name, het, padTriples_three, List.getD_cons_zero,
    List.getD_cons_succ]

theorem splitOn_build_adv_name (f : Frame) (t1 t2 t3 : Triple)
    (het : f.triples = [t1, t2, t3]) :
    (build_adv_name f).splitOn '_' =
      [['I', 'L', 'L', 'O'], intToDecimal f.seq,
       intToDecimal t1.pos, intToDecimal t1.inten, intToDecimal t1.ctype,
       intToDecimal t2.pos, intToDecimal t2.inten, intToDecimal t2.ctype,
       intToDecimal t3.pos, intToDecimal t3.inten, intToDecimal t3.ctype] := by
  rw [build_adv_name_eq f t1 t2 t3 het]
  refine List.splitOn_intercalate _ '_' ?_ (by simp)
  intro l hl
  simp only [List.mem_cons, List.not_mem_nil, or_false] at hl
  rcases hl with rfl | rfl | rfl | rfl | rfl | rfl | rfl | rfl | rfl | rfl | rfl
  · decide
  all_goals exact fun hc => intToDecimal_no_underscore _ '_' hc rfl

theorem clampTriple_of_valid (t : Triple) (h : validTriple t) :
    clampTriple t = t := by
  unfold clampTriple
  rw [if_pos h]

/-- C1: codec round-trip.  For every valid VisualFrame (sequence in [0,255],
exactly 3 triples, each with position in [0,9], intensity in [0,255] and
colorType in {0,1,2}), decoding the encoded advertisement-name token yields
the same frame field-for-field: parse_name (build_adv_name f) = some f. -/
theorem C1_codec_roundtrip (f : Frame) (h : validFrame f) :
    parse_name (build_adv_name f) = some f := by
  obtain ⟨hs0, hs255, hlen, htr⟩ := h
  obtain ⟨t1, t2, t3, het⟩ := List.length_eq_three.mp hlen
  have ht1 : validTriple t1 := htr t1 (by rw [het]; simp)
  have ht2 : validTriple t2 := htr t2 (by rw [het]; simp)
  have ht3 : validTriple t3 := htr t3 (by rw [het]; simp)
  have hseq : pyInt? (intToDecimal f.seq) = some f.seq :=
    pyInt?_intToDecimal f.seq hs0
  have h1p : pyInt? (intToDecimal t1.pos) = some t1.pos :=
    pyInt?_intToDecimal _ ht1.1
  have h1i : pyInt? (intToDecimal t1.inten) = some t1.inten :=
    pyInt?_intToDecimal _ ht1.2.2.1
  have h1c : pyInt? (intToDecimal t1.ctype) = some t1.ctype :=
    pyInt?_intToDecimal _ ht1.2.2.2.2.1
  have h2p : pyInt? (intToDecimal t2.pos) = some t2.pos :=
    pyInt?_intToDecimal _ ht2.1
  have h2i : pyInt? (intToDecimal t2.inten) = some t2.inten :=
    pyInt?_intToDecimal _ ht2.2.2.1
  have h2c : pyInt? (intToDecimal t2.ctype) = some t2.ctype :=
    pyInt?_intToDecimal _ ht2.2.2.2.2.1
  have h3p : pyInt? (intToDecimal t3.pos) = some t3.pos :=
    pyInt?_intToDecimal _ ht3.1
  have h3i : pyInt? (intToDecimal t3.inten) = some t3.inten :=
    pyInt?_intToDecimal _ ht3.2.2.1
  have h3c : pyInt? (intToDecimal t3.ctype) = some t3.ctype :=
    pyInt?_intToDecimal _ ht3.2.2.2.2.1
  have hc1 : clampTriple ⟨t1.pos, t1.inten, t1.ctype⟩ = t1 :=
    clampTriple_of_valid t1 ht1
  have hc2 : clampTriple ⟨t2.pos, t2.inten, t2.ctype⟩ = t2 :=
    clampTriple_of_valid t2 ht2
  have hc3 : clampTriple ⟨t3.pos, t3.inten, t3.ctype⟩ = t3 :=
    clampTriple_of_valid t3 ht3
  simp only [parse_name, parse_fields, splitOn_build_adv_name f t1 t2 t3 het,
    List.length_cons, List.length_nil, List.getD_cons_zero, List.getD_cons_succ,
    List.drop_succ_cons, List.drop_zero, List.mapM_cons, List.mapM_nil,
    hseq, h1p, h1i, h1c, h2p, h2i, h2c, h3p, h3i, h3c,
    Option.bind_eq_bind, Option.some_bind, Option.pure_def,
    if_pos, hc1, hc2, hc3]
  rw [← het]

/-- C1 witness at the spec's own example frame. -/
theorem C1_codec_roundtrip_witness :
    validFrame ⟨5, [⟨2, 255, 0⟩, ⟨3, 128, 1⟩, ⟨0, 0, 2⟩]⟩ ∧
      parse_name (build_adv_name ⟨5, [⟨2, 255, 0⟩, ⟨3, 128, 1⟩, ⟨0, 0, 2⟩]⟩) =
        some ⟨5, [⟨2, 255, 0⟩, ⟨3, 128, 1⟩, ⟨0, 0, 2⟩]⟩ :=
  ⟨by decide, C1_codec_roundtrip ⟨5, [⟨2, 255, 0⟩, ⟨3, 128, 1⟩, ⟨0, 0, 2⟩]⟩ (by decide)⟩

theorem parse_fields_none_of_bad_length (parts : List (List Char))
    (h : parts.length ≠ 11) : parse_fields parts = none := by
  simp [parse_fields, h]

theorem mapM_eq_none {α β : Type} (fn : α → Option β) :
    ∀ (l : List α) (x : α), x ∈ l → fn x = none → l.mapM fn = none := by
  intro l
  induction l with
  | nil => intro x hx; simp at hx
  | cons a t ih =>
    intro x hx hnone
    rw [List.mapM_cons]
    rcases List.mem_cons.mp hx with rfl | hmem
    · rw [hnone]; rfl
    · rcases ha : fn a with _ | b
      · rfl
      · simp only [Option.bind_eq_bind, Option.some_bind, ih x hmem hnone]
        rfl

theorem parse_fields_none_of_field_none (parts : List (List Char))
    (hl : parts.length = 11) (s : List Char) (hs : s ∈ parts.drop 1)
    (hnone : pyInt? s = none) : parse_fields parts = none := by
  rcases parts with _ | ⟨p0, rest⟩
  · simp at hl
  rcases rest with _ | ⟨p1, rest2⟩
  · simp at hl
  simp only [List.drop_succ_cons, List.drop_zero] at hs
  unfold parse_fields
  rw [if_pos hl]
  simp only [List.getD_cons_succ, List.getD_cons_zero, List.drop_succ_cons,
    List.drop_zero]
  rcases List.mem_cons.mp hs with rfl | hmem
  · rw [hnone]
  · rw [mapM_eq_none pyInt? rest2 s hmem hnone]
    rcases pyInt? p1 with _ | v <;> rfl

/-- C2: malformed rejection.  Any token whose underscore-split field count is
not exactly 11, or in which one of the 10 numeric fields fails int()
parsing, decodes to None — never to a partially-populated frame. -/
theorem C2_malformed_rejection (name : List Char)
    (h : (name.splitOn '_').length ≠ 11 ∨
      ∃ s ∈ (name.splitOn '_').drop 1, pyInt? s = none) :
    parse_name name = none := by
  unfold parse_name
  rcases h with h | ⟨s, hs, hnone⟩
  · exact parse_fields_none_of_bad_length _ h
  · by_cases hl : (name.splitOn '_').length = 11
    · exact parse_fields_none_of_field_none _ hl s hs hnone
    · exact parse_fields_none_of_bad_length _ hl

/-- C2 witness: a token with 10 fields instead of 11 decodes to None. -/
theorem C2_malformed_rejection_witness :
    ((("ILLO_1_2_3_4_5_6_7_8_9").toList.splitOn '_').length ≠ 11 ∨
      ∃ s ∈ (("ILLO_1_2_3_4_5_6_7_8_9").toList.splitOn '_').drop 1,
        pyInt? s = none) ∧
      parse_name (("ILLO_1_2_3_4_5_6_7_8_9").toList) = none :=
  ⟨Or.inl (by decide),
    C2_malformed_rejection (("ILLO_1_2_3_4_5_6_7_8_9").toList)
      (Or.inl (by decide))⟩

theorem parse_fields_success (parts : List (List Char))
    (hl : parts.length = 11) (s a b c d e f g h i : Int)
    (hseq : pyInt? (parts.getD 1 []) = some s)
    (hvals : (parts.drop 2).mapM pyInt? = some [a, b, c, d, e, f, g, h, i]) :
    parse_fields parts =
      some ⟨s, [clampTriple ⟨a, b, c⟩, clampTriple ⟨d, e, f⟩,
                clampTriple ⟨g, h, i⟩]⟩ := by
  unfold parse_fields
  rw [if_pos hl, hseq, hvals]

/-- C3: range clamping.  For a token with 11 fields whose numeric fields all
parse, the decode succeeds, and each triple is returned unchanged when it is
in range and replaced by the dark default (0,0,0) exactly when it is out of
range; an out-of-range triple never fails the decode. -/
theorem C3_range_clamping (name : List Char) (s a b c d e f g h i : Int)
    (hl : (name.splitOn '_').length = 11)
    (hseq : pyInt? ((name.splitOn '_').getD 1 []) = some s)
    (hvals : ((name.splitOn '_').drop 2).mapM pyInt? =
      some [a, b, c, d, e, f, g, h, i]) :
    ∃ fr : Frame, parse_name name = some fr ∧
      fr.triples =
        [if validTriple ⟨a, b, c⟩ then (⟨a, b, c⟩ : Triple) else ⟨0, 0, 0⟩,
         if validTriple ⟨d, e, f⟩ then (⟨d, e, f⟩ : Triple) else ⟨0, 0, 0⟩,
         if validTriple ⟨g, h, i⟩ then (⟨g, h, i⟩ : Triple) else ⟨0, 0, 0⟩] :=
  ⟨_, parse_fields_success (name.splitOn '_') hl s a b c d e f g h i hseq hvals,
    rfl⟩

/-- C3 witness: decoding ILLO_7_99_300_7_1_10_0_2_20_1 (first triple out of
range, others in range) keeps the valid triples and darkens the bad one. -/
theorem C3_range_clamping_witness :
    ((("ILLO_7_99_300_7_1_10_0_2_20_1").toList.splitOn '_').length = 11) ∧
      (∃ fr : Frame,
        parse_name (("ILLO_7_99_300_7_1_10_0_2_20_1").toList) = some fr ∧
        fr.triples =
          [if validTriple ⟨99, 300, 7⟩ then (⟨99, 300, 7⟩ : Triple) else ⟨0, 0, 0⟩,
           if validTriple ⟨1, 10, 0⟩ then (⟨1, 10, 0⟩ : Triple) else ⟨0, 0, 0⟩,
           if validTriple ⟨2, 20, 1⟩ then (⟨2, 20, 1⟩ : Triple) else ⟨0, 0, 0⟩]) :=
  ⟨by decide,
    C3_range_clamping (("ILLO_7_99_300_7_1_10_0_2_20_1").toList)
      7 99 300 7 1 10 0 2 20 1 (by decide) (by decide) (by decide)⟩

/-- C9: the decoder performs no range validation on the sequence field — a
token with 11 fields and all-numeric values yields a frame whose seq is the
parsed value verbatim (no hypothesis restricts s to [0,255]), while each
triple goes through the range-check-and-default clamp. -/
theorem C9_sequence_not_range_checked (name : List Char)
    (s a b c d e f g h i : Int)
    (hl : (name.splitOn '_').length = 11)
    (hseq : pyInt? ((name.splitOn '_').getD 1 []) = some s)
    (hvals : ((name.splitOn '_').drop 2).mapM pyInt? =
      some [a, b, c, d, e, f, g, h, i]) :
    ∃ fr : Frame, parse_name name = some fr ∧ fr.seq = s ∧
      fr.triples = [clampTriple ⟨a, b, c⟩, clampTriple ⟨d, e, f⟩,
                    clampTriple ⟨g, h, i⟩] :=
  ⟨_, parse_fields_success (name.splitOn '_') hl s a b c d e f g h i hseq hvals,
    rfl, rfl⟩

/-- C9 witness: a token with negative sequence -3 decodes to a frame whose
seq is -3, outside [0,255]. -/
theorem C9_sequence_not_range_checked_witness :
    (pyInt? ((("ILLO_-3_99_300_7_1_10_0_2_20_1").toList.splitOn '_').getD 1 []) =
      some (-3)) ∧ ((-3 : Int) < 0) ∧
      (∃ fr : Frame,
        parse_name (("ILLO_-3_99_300_7_1_10_0_2_20_1").toList) = some fr ∧
        fr.seq = -3 ∧
        fr.triples = [clampTriple ⟨99, 300, 7⟩, clampTriple ⟨1, 10, 0⟩,
                      clampTriple ⟨2, 20, 1⟩]) :=
  ⟨by decide, by decide,
    C9_sequence_not_range_checked (("ILLO_-3_99_300_7_1_10_0_2_20_1").toList)
      (-3) 99 300 7 1 10 0 2 20 1 (by decide) (by decide) (by decide)⟩

example : parse_name (("ILLO_5_2_255_0_3_128_1_0_0_2").toList) =
    some ⟨5, [⟨2, 255, 0⟩, ⟨3, 128, 1⟩, ⟨0, 0, 2⟩]⟩ := by decide

example : build_adv_name ⟨5, [⟨2, 255, 0⟩, ⟨3, 128, 1⟩, ⟨0, 0, 2⟩]⟩ =
    ("ILLO_5_2_255_0_3_128_1_0_0_2").toList := by decide

example : parse_name (("ILLO_1_2_3").toList) = none := by decide

example : parse_name (("ILLO_-3_99_300_7_1_10_0_2_20_1").toList) =
    some ⟨-3, [⟨0, 0, 0⟩, ⟨1, 10, 0⟩, ⟨2, 20, 1⟩]⟩ := by decide

example : smoothIter (9/10) 100 0 1 = 90 := by
  show smoothChannel (9/10) 0 100 = 90
  norm_num [smoothChannel]

/-- C8: smoothing convergence.  For any alpha in (0,1] and constant target t,
iterating smoothed = smoothed + (t - smoothed) * alpha from any start s gives
a distance to t that never increases and eventually drops below any positive
tolerance. -/
theorem C8_smoothing_convergence (a t s : ℚ) (ha0 : 0 < a) (ha1 : a ≤ 1) :
    (∀ n, |t - smoothIter a t s (n + 1)| ≤ |t - smoothIter a t s n|) ∧
    (∀ ε : ℚ, 0 < ε → ∃ N, ∀ n, N ≤ n → |t - smoothIter a t s n| < ε) := by
  have hr0 : (0 : ℚ) ≤ 1 - a := by linarith
  have key : ∀ n, t - smoothIter a t s (n + 1) =
      (t - smoothIter a t s n) * (1 - a) := by
    intro n
    show t - smoothChannel a (smoothIter a t s n) t = _
    unfold smoothChannel
    ring
  have habs : ∀ n, |t - smoothIter a t s n| = |t - s| * (1 - a) ^ n := by
    intro n
    induction n with
    | zero => show |t - s| = |t - s| * (1 - a) ^ 0; ring
    | succ n ih =>
      rw [key n, abs_mul, ih, abs_of_nonneg hr0, pow_succ, mul_assoc]
  constructor
  · intro n
    rw [key n, abs_mul, abs_of_nonneg hr0]
    have h1 : (0 : ℚ) ≤ |t - smoothIter a t s n| := abs_nonneg _
    nlinarith
  · intro ε hε
    rcases eq_or_lt_of_le (abs_nonneg (t - s)) with hts | hts
    · refine ⟨0, fun n _ => ?_⟩
      rw [habs n, ← hts, zero_mul]
      exact hε
    · obtain ⟨N, hN⟩ := exists_pow_lt_of_lt_one (div_pos hε hts)
        (by linarith : 1 - a < 1)
      refine ⟨N, fun n hn => ?_⟩
      rw [habs n]
      have h1 : (1 - a) ^ n ≤ (1 - a) ^ N := pow_le_pow_of_le_one hr0 (by linarith) hn
      calc |t - s| * (1 - a) ^ n ≤ |t - s| * (1 - a) ^ N :=
            mul_le_mul_of_nonneg_left h1 (abs_nonneg _)
      _ < |t - s| * (ε / |t - s|) := (mul_lt_mul_left hts).mpr hN
      _ = ε := mul_div_cancel₀ ε (ne_of_gt hts)

/-- C8 witness at alpha = 1, target 0, start 1. -/
theorem C8_smoothing_convergence_witness :
    (0 : ℚ) < 1 ∧ (1 : ℚ) ≤ 1 ∧
      ((∀ n, |(0 : ℚ) - smoothIter 1 0 1 (n + 1)| ≤ |0 - smoothIter 1 0 1 n|) ∧
       (∀ ε : ℚ, 0 < ε → ∃ N, ∀ n, N ≤ n → |0 - smoothIter 1 0 1 n| < ε)) :=
  ⟨by decide, by decide, C8_smoothing_convergence 1 0 1 (by decide) (by decide)⟩

theorem pytrunc_bounds (q : ℚ) (h0 : 0 ≤ q) (h1 : q ≤ 255) :
    0 ≤ pytrunc q ∧ pytrunc q ≤ 255 := by
  unfold pytrunc
  rw [if_neg (not_lt.mpr h0)]
  refine ⟨Int.floor_nonneg.mpr h0, ?_⟩
  have h2 : ⌊q⌋ ≤ ⌊(255 : ℚ)⌋ := Int.floor_le_floor h1
  have h255 : ⌊(255 : ℚ)⌋ = 255 := by
    rw [show (255 : ℚ) = ((255 : ℤ) : ℚ) by norm_num, Int.floor_intCast]
  omega

theorem themedTargetRGB_bounds (inten ctype : Int) (h0 : 0 < inten)
    (h1 : inten ≤ 255) : inRangeRGB (themedTargetRGB inten ctype) := by
  have hq0 : (0 : ℚ) ≤ (inten : ℚ) := by exact_mod_cast le_of_lt h0
  have hq1 : (inten : ℚ) ≤ 255 := by exact_mod_cast h1
  have h15 := pytrunc_bounds ((inten : ℚ) * (15 / 100)) (by nlinarith) (by nlinarith)
  have h30 := pytrunc_bounds ((inten : ℚ) * (30 / 100)) (by nlinarith) (by nlinarith)
  have h05 := pytrunc_bounds ((inten : ℚ) * (5 / 100)) (by nlinarith) (by nlinarith)
  unfold themedTargetRGB inRangeRGB
  split
  · rw [if_neg (by omega)]
    dsimp only
    exact ⟨by omega, by omega, h15.1, h15.2, h15.1, h15.2⟩
  split
  · dsimp only
    exact ⟨h15.1, h15.2, by omega, by omega, h15.1, h15.2⟩
  · dsimp only
    exact ⟨h30.1, h30.2, h05.1, h05.2, by omega, by omega⟩

theorem targetStep_bounds (tgt : List (Int × Int × Int)) (t : Triple)
    (hb : ∀ x ∈ tgt, inRangeRGB x) (ht : t.inten ≤ 255) :
    ∀ x ∈ targetStep tgt t, inRangeRGB x := by
  unfold targetStep
  split
  · exact hb
  · rename_i hcond
    intro x hx
    rcases List.mem_or_eq_of_mem_set hx with h | rfl
    · exact hb x h
    · have hpos : 0 < t.inten := by
        by_contra hle
        exact hcond (Or.inl (by omega))
      exact themedTargetRGB_bounds t.inten t.ctype hpos ht

theorem foldl_targetStep_bounds :
    ∀ (ts : List Triple) (init : List (Int × Int × Int)),
      (∀ t ∈ ts, t.inten ≤ 255) → (∀ x ∈ init, inRangeRGB x) →
      ∀ x ∈ ts.foldl targetStep init, inRangeRGB x := by
  intro ts
  induction ts with
  | nil => intro init _ hb; simpa using hb
  | cons a l ih =>
    intro init h hb
    rw [List.foldl_cons]
    exact ih (targetStep init a)
      (fun t htm => h t (List.mem_cons_of_mem a htm))
      (targetStep_bounds init a hb (h a (List.mem_cons_self a l)))

theorem buildTarget_bounds (triples : List Triple)
    (h : ∀ t ∈ triples, t.inten ≤ 255) :
    ∀ x ∈ buildTarget triples, inRangeRGB x := by
  refine foldl_targetStep_bounds triples _ h ?_
  intro x hx
  rw [List.eq_of_mem_replicate hx]
  decide

theorem smoothChannel_bounds (a s t : ℚ) (ha0 : 0 < a) (ha1 : a ≤ 1)
    (hs0 : 0 ≤ s) (hs1 : s ≤ 255) (ht0 : 0 ≤ t) (ht1 : t ≤ 255) :
    0 ≤ smoothChannel a s t ∧ smoothChannel a s t ≤ 255 := by
  unfold smoothChannel
  constructor <;> nlinarith

theorem smoothCell_bounds (a : ℚ) (ha0 : 0 < a) (ha1 : a ≤ 1)
    (s : ℚ × ℚ × ℚ) (t : Int × Int × Int) (hs : chanBounds s)
    (ht : inRangeRGB t) : chanBounds (smoothCell a s t) := by
  obtain ⟨hs1, hs2, hs3, hs4, hs5, hs6⟩ := hs
  obtain ⟨ht1, ht2, ht3, ht4, ht5, ht6⟩ := ht
  have hq1 : (0 : ℚ) ≤ (t.1 : ℚ) := by exact_mod_cast ht1
  have hq2 : (t.1 : ℚ) ≤ 255 := by exact_mod_cast ht2
  have hq3 : (0 : ℚ) ≤ (t.2.1 : ℚ) := by exact_mod_cast ht3
  have hq4 : (t.2.1 : ℚ) ≤ 255 := by exact_mod_cast ht4
  have hq5 : (0 : ℚ) ≤ (t.2.2 : ℚ) := by exact_mod_cast ht5
  have hq6 : (t.2.2 : ℚ) ≤ 255 := by exact_mod_cast ht6
  have b1 := smoothChannel_bounds a s.1 (t.1 : ℚ) ha0 ha1 hs1 hs2 hq1 hq2
  have b2 := smoothChannel_bounds a s.2.1 (t.2.1 : ℚ) ha0 ha1 hs3 hs4 hq3 hq4
  have b3 := smoothChannel_bounds a s.2.2 (t.2.2 : ℚ) ha0 ha1 hs5 hs6 hq5 hq6
  exact ⟨b1.1, b1.2, b2.1, b2.2, b3.1, b3.2⟩

theorem zipWith_smoothCell_bounds (a : ℚ) (ha0 : 0 < a) (ha1 : a ≤ 1) :
    ∀ (l1 : List (ℚ × ℚ × ℚ)) (l2 : List (Int × Int × Int)),
      (∀ c ∈ l1, chanBounds c) → (∀ x ∈ l2, inRangeRGB x) →
      ∀ c ∈ List.zipWith (smoothCell a) l1 l2, chanBounds c := by
  intro l1
  induction l1 with
  | nil => intro l2 _ _ c hc; simp at hc
  | cons s l ih =>
    intro l2 h1 h2 c hc
    cases l2 with
    | nil => simp at hc
    | cons t l2t =>
      rw [List.zipWith_cons_cons] at hc
      rcases List.mem_cons.mp hc with rfl | hmem
      · exact smoothCell_bounds a ha0 ha1 s t (h1 s (List.mem_cons_self s l))
          (h2 t (List.mem_cons_self t l2t))
      · exact ih l2t (fun x hx => h1 x (List.mem_cons_of_mem s hx))
          (fun x hx => h2 x (List.mem_cons_of_mem t hx)) c hmem

theorem pyClampRound_eq_round (q : ℚ) (h0 : 0 ≤ q) (h1 : q ≤ 255) :
    pyClampRound q = pytrunc (q + 1 / 2) := by
  unfold pyClampRound
  rw [if_neg (not_lt.mpr h0), if_neg (not_lt.mpr h1)]

/-- C10: the follower's smoothing accumulator is self-bounding.  If every
smoothed channel is within [0,255] before a _render_triples call, every
rendered triple has intensity in [0,255], and alpha is in (0,1], then every
smoothed channel stays within [0,255] after the call, and whenever the call
is not rate-limited the emitted pixel channels are exactly the rounded
smoothed values — the output clamp branches never fire. -/
theorem C10_smoothing_self_bounding (a : ℚ) (st : FState) (now : Int)
    (triples : List Triple) (ha0 : 0 < a) (ha1 : a ≤ 1)
    (hsm : ∀ c ∈ st.smooth, chanBounds c)
    (htr : ∀ t ∈ triples, 0 ≤ t.inten ∧ t.inten ≤ 255) :
    (∀ c ∈ (render_triples a st now triples).smooth, chanBounds c) ∧
    (MIN_RENDER_MS ≤ now - st.last_render_ms →
      (render_triples a st now triples).pixels =
        (render_triples a st now triples).smooth.map
          (fun c => (pytrunc (c.1 + 1 / 2), pytrunc (c.2.1 + 1 / 2),
            pytrunc (c.2.2 + 1 / 2)))) := by
  unfold render_triples
  split
  · rename_i h
    exact ⟨hsm, fun hge => absurd hge (not_le.mpr h)⟩
  · have hb : ∀ x ∈ buildTarget triples, inRangeRGB x :=
      buildTarget_bounds triples (fun t ht => (htr t ht).2)
    have hsm2 : ∀ c ∈ List.zipWith (smoothCell a) st.smooth (buildTarget triples),
        chanBounds c :=
      zipWith_smoothCell_bounds a ha0 ha1 st.smooth _ hsm hb
    refine ⟨hsm2, fun _ => ?_⟩
    show (List.zipWith (smoothCell a) st.smooth (buildTarget triples)).map
        (fun c => (pyClampRound c.1, pyClampRound c.2.1, pyClampRound c.2.2)) =
      (List.zipWith (smoothCell a) st.smooth (buildTarget triples)).map
        (fun c => (pytrunc (c.1 + 1 / 2), pytrunc (c.2.1 + 1 / 2),
          pytrunc (c.2.2 + 1 / 2)))
    refine List.map_congr_left ?_
    intro c hc
    have hcb := hsm2 c hc
    rw [pyClampRound_eq_round _ hcb.1 hcb.2.1,
        pyClampRound_eq_round _ hcb.2.2.1 hcb.2.2.2.1,
        pyClampRound_eq_round _ hcb.2.2.2.2.1 hcb.2.2.2.2.2]

/-- C10 witness: alpha = 1, an all-dark length-10 accumulator, one full-red
triple, render due. -/
theorem C10_smoothing_self_bounding_witness :
    (0 : ℚ) < 1 ∧ (1 : ℚ) ≤ 1 ∧
      (∀ c ∈ (FState.mk none none 0 0 (List.replicate 10 (0, 0, 0))
        (List.replicate 10 (0, 0, 0)) 0).smooth, chanBounds c) ∧
      (∀ t ∈ [(⟨2, 255, 0⟩ : Triple)], 0 ≤ t.inten ∧ t.inten ≤ 255) ∧
      ((∀ c ∈ (render_triples 1 (FState.mk none none 0 0
          (List.replicate 10 (0, 0, 0)) (List.replicate 10 (0, 0, 0)) 0) 20
          [⟨2, 255, 0⟩]).smooth, chanBounds c) ∧
       (MIN_RENDER_MS ≤ 20 - (FState.mk none none 0 0
          (List.replicate 10 (0, 0, 0)) (List.replicate 10 (0, 0, 0)) 0).last_render_ms →
        (render_triples 1 (FState.mk none none 0 0
          (List.replicate 10 (0, 0, 0)) (List.replicate 10 (0, 0, 0)) 0) 20
          [⟨2, 255, 0⟩]).pixels =
        (render_triples 1 (FState.mk none none 0 0
          (List.replicate 10 (0, 0, 0)) (List.replicate 10 (0, 0, 0)) 0) 20
          [⟨2, 255, 0⟩]).smooth.map
          (fun c => (pytrunc (c.1 + 1 / 2), pytrunc (c.2.1 + 1 / 2),
            pytrunc (c.2.2 + 1 / 2))))) :=
  ⟨by decide, by decide, by decide, by decide,
    C10_smoothing_self_bounding 1 (FState.mk none none 0 0
      (List.replicate 10 (0, 0, 0)) (List.replicate 10 (0, 0, 0)) 0) 20
      [⟨2, 255, 0⟩] (by decide) (by decide) (by decide) (by decide)⟩

theorem render_triples_last_seq (a : ℚ) (st : FState) (now : Int)
    (tr : List Triple) : (render_triples a st now tr).last_seq = st.last_seq := by
  unfold render_triples
  split <;> rfl

/-- C4 counterexample: feeding the follower loop a frame whose sequence
equals the last seen one does NOT leave the receiver state unchanged — the
success counter increments from 0 to 1 and the last-seen timestamp moves
from 0 to the scan time 1 (only the render is skipped). -/
theorem C4_counterexample :
    parse_name dupName = some ⟨5, [⟨0, 0, 0⟩, ⟨0, 0, 0⟩, ⟨0, 0, 0⟩]⟩ ∧
    dupState.last_seq = some 5 ∧ dupState.success = 0 ∧
    dupState.last_seen_t = some 0 ∧
    (processAdv 1 dupState 1 0 dupName).1.success = 1 ∧
    (processAdv 1 dupState 1 0 dupName).1.last_seen_t = some 1 ∧
    (processAdv 1 dupState 1 0 dupName).2 = false := by
  refine ⟨by decide, rfl, rfl, rfl, ?_, ?_, ?_⟩ <;> decide

/-- C4 as amended: processing a duplicate frame performs no render and
leaves lastSequenceSeen, the fail counter, the smoothing buffer and the
pixels unchanged, but it DOES increment the success counter and refresh the
last-seen timestamp. -/
theorem C4_duplicate_no_render (a : ℚ) (st : FState) (now_s : ℚ)
    (now_ms : Int) (name : List Char) (f : Frame)
    (htag : hasIlloTag name = true) (hp : parse_name name = some f)
    (hdup : st.last_seq = some f.seq) :
    processAdv a st now_s now_ms name =
      ({ st with success := st.success + 1, last_seen_t := some now_s },
       false) := by
  unfold processAdv
  rw [if_pos htag, hp]
  dsimp only
  rw [hdup, if_neg (by simp)]

/-- C4 witness: the amended no-render behaviour at the concrete duplicate. -/
theorem C4_duplicate_no_render_witness :
    hasIlloTag dupName = true ∧
    parse_name dupName = some ⟨5, [⟨0, 0, 0⟩, ⟨0, 0, 0⟩, ⟨0, 0, 0⟩]⟩ ∧
    dupState.last_seq = some (5 : Int) ∧
    processAdv 1 dupState 1 0 dupName =
      ({ dupState with
          success := dupState.success + 1,
          last_seen_t := some 1 }, false) :=
  ⟨by decide, by decide, rfl,
    C4_duplicate_no_render 1 dupState 1 0 dupName
      ⟨5, [⟨0, 0, 0⟩, ⟨0, 0, 0⟩, ⟨0, 0, 0⟩]⟩ (by decide) (by decide) rfl⟩

/-- C5 counterexample: the loss clear does not happen exactly once — after
the clear fires at time 3, a later empty burst at time 4 fires the whole
clear again, because the last-seen time is never reset. -/
theorem C5_counterexample :
    (lossStep lostState 3 false).2 = true ∧
    (lossStep (lossStep lostState 3 false).1 4 false).2 = true := by
  constructor
  · norm_num [lossStep, lostState, LOSS_TIMEOUT_S]
  · norm_num [lossStep, lostState, LOSS_TIMEOUT_S]

/-- C5 as amended: whenever an empty burst happens at least the loss timeout
after the last seen frame — not only the first time — the follower clears
the pixel buffer to all-dark and resets lastSequenceSeen to none, leaving
the last-seen time in place (so the clear recurs, idempotently, on every
later empty burst); and once lastSequenceSeen is none, the next valid frame
is accepted and rendered whatever its sequence value, so wraparound to a
lower sequence resynchronises. -/
theorem C5_loss_clear_and_resync :
    (∀ (st : FState) (now_s t0 : ℚ), st.last_seen_t = some t0 →
      LOSS_TIMEOUT_S ≤ now_s - t0 →
      lossStep st now_s false =
        ({ st with pixels := List.replicate 10 (0, 0, 0), last_seq := none },
         true)) ∧
    (∀ (a : ℚ) (st : FState) (now_s : ℚ) (now_ms : Int) (name : List Char)
      (f : Frame), hasIlloTag name = true → parse_name name = some f →
      st.last_seq = none →
      (processAdv a st now_s now_ms name).2 = true ∧
      (processAdv a st now_s now_ms name).1.last_seq = some f.seq) := by
  constructor
  · intro st now_s t0 h0 hto
    unfold lossStep
    rw [h0]
    dsimp only
    rw [if_pos ⟨rfl, hto⟩]
  · intro a st now_s now_ms name f htag hp hnone
    unfold processAdv
    rw [if_pos htag, hp]
    dsimp only
    rw [if_pos (Or.inl hnone)]
    exact ⟨rfl, by rw [render_triples_last_seq]⟩

/-- C5 witness: the clear at time 3 over lostState, and resynchronisation on
a sequence-5 frame from a cleared state. -/
theorem C5_loss_clear_and_resync_witness :
    (lostState.last_seen_t = some 0 ∧ LOSS_TIMEOUT_S ≤ (3 : ℚ) - 0 ∧
      lossStep lostState 3 false =
        ({ lostState with
            pixels := List.replicate 10 (0, 0, 0),
            last_seq := none }, true)) ∧
    (hasIlloTag dupName = true ∧
      parse_name dupName = some ⟨5, [⟨0, 0, 0⟩, ⟨0, 0, 0⟩, ⟨0, 0, 0⟩]⟩ ∧
      ({ lostState with last_seq := (none : Option Int) }).last_seq = none ∧
      (processAdv 1 { lostState with last_seq := none } 4 0 dupName).2 = true ∧
      (processAdv 1 { lostState with last_seq := none } 4 0 dupName).1.last_seq =
        some 5) :=
  ⟨⟨rfl, by norm_num [LOSS_TIMEOUT_S],
    C5_loss_clear_and_resync.1 lostState 3 0 rfl (by norm_num [LOSS_TIMEOUT_S])⟩,
   ⟨by decide, by decide, rfl,
    (C5_loss_clear_and_resync.2 1 { lostState with last_seq := none } 4 0
      dupName ⟨5, [⟨0, 0, 0⟩, ⟨0, 0, 0⟩, ⟨0, 0, 0⟩]⟩ (by decide) (by decide)
      rfl).1,
    (C5_loss_clear_and_resync.2 1 { lostState with last_seq := none } 4 0
      dupName ⟨5, [⟨0, 0, 0⟩, ⟨0, 0, 0⟩, ⟨0, 0, 0⟩]⟩ (by decide) (by decide)
      rfl).2⟩⟩

/-- C6 counterexample: with BLE inactive, a tick in follower mode (mode 2,
not 1) dispatches to the local leader-animation fallback — the follower DOES
produce pixel output from the local animator in that case. -/
theorem C6_counterexample :
    run_dispatch 2 false = TickAction.localFallback ∧ (2 : Int) ≠ 1 :=
  ⟨rfl, by decide⟩

/-- C6 as amended: while BLE sync is active, a non-leader mode always takes
the follower path, and the follower path touches pixels only by rendering an
accepted frame or by the all-dark loss clear; but when BLE is inactive every
mode — follower modes included — runs the local leader animation fallback. -/
theorem C6_follower_pixel_sources :
    (∀ mode : Int, mode ≠ 1 → run_dispatch mode true = TickAction.followerSync) ∧
    (∀ mode : Int, run_dispatch mode false = TickAction.localFallback) ∧
    (∀ (a : ℚ) (st : FState) (ns : ℚ) (nm : Int) (name : List Char),
      (processAdv a st ns nm name).2 = false →
      (processAdv a st ns nm name).1.pixels = st.pixels) ∧
    (∀ (st : FState) (ns : ℚ) (found : Bool),
      (lossStep st ns found).1.pixels = st.pixels ∨
      (lossStep st ns found).1.pixels = List.replicate 10 (0, 0, 0)) := by
  refine ⟨?_, ?_, ?_, ?_⟩
  · intro mode h
    unfold run_dispatch
    rw [if_neg (by simp), if_neg h]
  · intro mode
    unfold run_dispatch
    rw [if_pos rfl]
  · intro a st ns nm name h
    by_cases htag : hasIlloTag name = true
    · unfold processAdv at h ⊢
      rw [if_pos htag] at h ⊢
      rcases hp : parse_name name with _ | f
      · rfl
      · rw [hp] at h
        dsimp only at h ⊢
        by_cases hnew : st.last_seq = none ∨ st.last_seq ≠ some f.seq
        · rw [if_pos hnew] at h
          simp at h
        · rw [if_neg hnew]
    · unfold processAdv at h ⊢
      rw [if_neg htag]
  · intro st ns found
    unfold lossStep
    cases h0 : st.last_seen_t with
    | none => exact Or.inl rfl
    | some t0 =>
      dsimp only
      split
      · exact Or.inr rfl
      · exact Or.inl rfl

/-- C6 witness: the amended dispatch and pixel-source facts at concrete
inputs (mode 2 with sync active; the no-render duplicate step). -/
theorem C6_follower_pixel_sources_witness :
    ((2 : Int) ≠ 1 ∧ run_dispatch 2 true = TickAction.followerSync) ∧
    ((processAdv 1 dupState 1 0 dupName).2 = false ∧
      (processAdv 1 dupState 1 0 dupName).1.pixels = dupState.pixels) ∧
    ((lossStep lostState 3 false).1.pixels = lostState.pixels ∨
      (lossStep lostState 3 false).1.pixels = List.replicate 10 (0, 0, 0)) :=
  ⟨⟨by decide, C6_follower_pixel_sources.1 2 (by decide)⟩,
   ⟨by decide, C6_follower_pixel_sources.2.2.1 1 dupState 1 0 dupName (by decide)⟩,
   C6_follower_pixel_sources.2.2.2 lostState 3 false⟩

theorem adv_skip (P : Int) (st : LState) (t : Int)
    (h : t - st.last_adv_ms < P) :
    leader_advertise_if_due P st t = (st, false) := by
  unfold leader_advertise_if_due
  rw [if_pos h]

theorem adv_pub (P : Int) (st : LState) (t : Int)
    (h : ¬(t - st.last_adv_ms < P)) :
    leader_advertise_if_due P st t =
      ({ seq := (st.seq + 1) % 256, last_adv_ms := t,
         triples := padTriples st.triples,
         adv_name := some (build_adv_name
           ⟨((st.seq + 1) % 256 : Nat), padTriples st.triples⟩) }, true) := by
  unfold leader_advertise_if_due
  rw [if_neg h]

/-- C7: transmitter rate limiting.  For two consecutive advertise-step
invocations separated by strictly less than the period, at most one of them
publishes; and when the earlier one publishes, the later one returns with
the state (sequence counter and advertised name included) completely
untouched. -/
theorem C7_advertise_rate_limit (P : Int) (st : LState) (t1 t2 : Int)
    (_hord : t1 ≤ t2) (hlt : t2 - t1 < P) :
    (¬((leader_advertise_if_due P st t1).2 = true ∧
       (leader_advertise_if_due P (leader_advertise_if_due P st t1).1 t2).2 =
         true)) ∧
    (P ≤ t1 - st.last_adv_ms →
      (leader_advertise_if_due P st t1).2 = true ∧
      leader_advertise_if_due P (leader_advertise_if_due P st t1).1 t2 =
        ((leader_advertise_if_due P st t1).1, false)) := by
  by_cases h1 : t1 - st.last_adv_ms < P
  · rw [adv_skip P st t1 h1]
    constructor
    · rintro ⟨hfirst, _⟩
      simp at hfirst
    · intro hge
      exact absurd hge (not_le.mpr h1)
  · rw [adv_pub P st t1 h1]
    dsimp only
    rw [adv_skip P _ t2 (show t2 - t1 < P from hlt)]
    exact ⟨by rintro ⟨_, h⟩; simp at h, fun _ => ⟨rfl, rfl⟩⟩

/-- C7 witness: period 80, a publish due at t=100 followed by a call at
t=150. -/
theorem C7_advertise_rate_limit_witness :
    ((100 : Int) ≤ 150) ∧ ((150 : Int) - 100 < 80) ∧
    ((80 : Int) ≤ 100 - (LState.mk 0 0 [] none).last_adv_ms) ∧
    ((¬((leader_advertise_if_due 80 (LState.mk 0 0 [] none) 100).2 = true ∧
        (leader_advertise_if_due 80
          (leader_advertise_if_due 80 (LState.mk 0 0 [] none) 100).1 150).2 =
          true)) ∧
     ((80 : Int) ≤ 100 - (LState.mk 0 0 [] none).last_adv_ms →
       (leader_advertise_if_due 80 (LState.mk 0 0 [] none) 100).2 = true ∧
       leader_advertise_if_due 80
           (leader_advertise_if_due 80 (LState.mk 0 0 [] none) 100).1 150 =
         ((leader_advertise_if_due 80 (LState.mk 0 0 [] none) 100).1, false))) :=
  ⟨by decide, by decide, by decide,
    C7_advertise_rate_limit 80 (LState.mk 0 0 [] none) 100 150 (by decide)
      (by decide)⟩

end Illo
